import Mathlib

/-!
Shallow embedding of the Aperture file organizer (organizer.py).

The program is a single sequential batch operation: a `FileOrganizer` is
constructed for a target directory (validating that the path is a
directory and installing a hardcoded extension-to-category mapping), and
`organize_files` takes one directory listing of the target root and, for
each listed entry, skips directories, skips extensionless files with a
warning, resolves a category for the remaining files, ensures the
category folder exists (`os.makedirs` with `exist_ok=True`, which still
raises when the path exists as a regular file), and moves the file into
that folder, counting moves and skips and catching per-file move
failures.

The embedding models the target directory root as a list of named
entries, the contents of subfolders as an association list, the logging
stream as a list of structured events, and the environment-dependent
outcome of `shutil.move` as an oracle from file names to an optional
failure detail.
-/

namespace Aperture

/-- A directory entry of the target root: a name together with whether
the entry is a directory (`os.path.isdir`). -/
structure Entry where
  name : String
  isDir : Bool
deriving DecidableEq, Repr

/-- Structured log events, mirroring the logging calls of the program:
the run-start info line, the warning for an extensionless file, the info
line for a successful move, the error line for a failed move (carrying
the file name and the failure detail, as the f-string does), and the
final summary lines. -/
inductive LogEvent where
  | startRun : LogEvent
  | warnNoExt : String → LogEvent
  | movedLog : String → String → LogEvent
  | moveFailed : String → String → LogEvent
  | complete : Nat → Nat → LogEvent
deriving DecidableEq, Repr

/-- The exception `os.makedirs` raises when the destination path exists
as a regular file even though `exist_ok=True` was passed (Python's
`FileExistsError`). This is the only exception of the loop body that is
raised outside the per-file `try` block. -/
inductive OrgError where
  | fileExistsError : String → OrgError
deriving DecidableEq, Repr

/-- Filesystem state seen by one run: the immediate entries of the
target directory root, the known contents (file names) of subfolders of
the root, and the log emitted so far. -/
structure FS where
  entries : List Entry
  folders : List (String × List String)
  log : List LogEvent
deriving DecidableEq, Repr

/-- Look up the entry of the target root carrying the given name. -/
def FS.rootEntry? (fs : FS) (n : String) : Option Entry :=
  fs.entries.find? (fun e => e.name = n)

/-- Append one event to the log, leaving the filesystem untouched. -/
def FS.addLog (fs : FS) (ev : LogEvent) : FS :=
  { fs with log := fs.log ++ [ev] }

/-- The result of `os.path.isdir` on a root entry name: true exactly
when an entry of that name exists and is a directory (a missing path is
reported as not-a-directory). -/
def isdirAt (fs : FS) (n : String) : Bool :=
  match fs.rootEntry? n with
  | some e => e.isDir
  | none => false

/-- The names returned by `os.listdir` on the target root. -/
def listdir (fs : FS) : List String :=
  fs.entries.map Entry.name

/-- Well-formedness of a directory state: `os.listdir` yields pairwise
distinct names. -/
def FS.WF (fs : FS) : Prop :=
  (fs.entries.map Entry.name).Nodup

instance (fs : FS) : Decidable fs.WF := by
  unfold FS.WF
  infer_instance

/-- Embedding of `os.makedirs(destination_path, exist_ok=True)` for a
single path component under the root: a no-op when a directory of that
name exists, a `FileExistsError` when a non-directory of that name
exists, and the creation of a fresh empty directory otherwise. -/
def makedirs (fs : FS) (d : String) : Except OrgError FS :=
  match fs.rootEntry? d with
  | some e => if e.isDir then .ok fs else .error (.fileExistsError d)
  | none =>
      .ok { fs with
              entries := fs.entries ++ [⟨d, true⟩],
              folders := fs.folders ++ [(d, [])] }

/-- Embedding of a successful `shutil.move` of root file `n` into
subfolder `d`: the entry leaves the root and the name is placed in the
folder's contents, replacing a file of the same name if one is there. -/
def moveToFolder (fs : FS) (n d : String) : FS :=
  let entries' := fs.entries.filter (fun e => ¬ e.name = n)
  if (fs.folders.map Prod.fst).contains d then
    { fs with
        entries := entries',
        folders := fs.folders.map (fun p =>
          if p.fst = d then (p.fst, p.snd.filter (fun x => ¬ x = n) ++ [n]) else p) }
  else
    { fs with
        entries := entries',
        folders := fs.folders ++ [(d, [n])] }

/-- Index of the last occurrence of a character in a list, mirroring
Python's `str.rfind` used by `os.path.splitext`. -/
def lastIdxOf (c : Char) : List Char → Option Nat
  | [] => none
  | a :: rest =>
      match lastIdxOf c rest with
      | some i => some (i + 1)
      | none => if a = c then some 0 else none

/-- Embedding of `os.path.splitext(p)[1]` for a bare file name (no path
separators): the substring from the last dot to the end, except that the
extension is empty when every character before the last dot is itself a
dot (so names such as ".bashrc" have no extension). -/
def splitextExt (p : String) : String :=
  match lastIdxOf '.' p.data with
  | none => ""
  | some d =>
      if (p.data.take d).all (fun a => a = '.') then ""
      else String.mk (p.data.drop d)

/-- Here and only here the specification's words are followed rather
than the source, for comparison with `splitextExt`: the claimed
extension of a name is the substring from the last dot to the end of the
name, with no further condition. -/
def claimedExtension (p : String) : String :=
  match lastIdxOf '.' p.data with
  | none => ""
  | some d => String.mk (p.data.drop d)

/-- Embedding of Python's `str.lower` on the characters of a string (the
extensions involved are ASCII). -/
def strLower (s : String) : String :=
  String.mk (s.data.map Char.toLower)

/-- The category table of `_create_default_mappings` before inversion,
exactly as written in the source. -/
def mappingTable : List (String × List String) :=
  [ ("Images", [".jpg", ".jpeg", ".png", ".gif", ".bmp", ".tiff", ".webp", ".svg"]),
    ("Documents", [".pdf", ".docx", ".doc", ".xlsx", ".xls", ".pptx", ".ppt", ".txt", ".rtf", ".odt"]),
    ("Archives", [".zip", ".rar", ".7z", ".tar", ".gz"]),
    ("Audio", [".mp3", ".wav", ".aac", ".flac", ".ogg"]),
    ("Video", [".mp4", ".mkv", ".avi", ".mov", ".wmv", ".flv"]),
    ("Scripts", [".py", ".js", ".sh", ".bat"]),
    ("Executables", [".exe", ".msi", ".dmg"]) ]

/-- Embedding of `_create_default_mappings`: invert the category table
into an extension-to-category association list, in iteration order of
the comprehension. -/
def createDefaultMappings : List (String × String) :=
  mappingTable.foldl
    (fun acc p => acc ++ p.snd.map (fun ext => (ext, p.fst))) []

/-- Embedding of `self.file_mappings.get(file_extension, 'Other')`. -/
def categoryFor (mp : List (String × String)) (ext : String) : String :=
  (mp.lookup ext).getD "Other"

/-- The category the loop body resolves for a listed file name: `none`
when the (lower-cased) splitext extension is empty, in which case the
file is skipped with a warning; otherwise the mapping lookup with
default category "Other". Direct transliteration of lines 70-78 of
organizer.py. -/
def fileCategory (mp : List (String × String)) (filename : String) : Option String :=
  let file_extension := strLower (splitextExt filename)
  if file_extension = "" then none
  else some (categoryFor mp file_extension)

/-- Failure of `FileOrganizer.__init__`: the `ValueError` raised when
the target path is not a directory. -/
inductive InitError where
  | invalidTarget : String → InitError
deriving DecidableEq, Repr

/-- The constructed organizer: the validated target directory and the
installed extension-to-category mapping. -/
structure FileOrganizer where
  target_directory : String
  file_mappings : List (String × String)
deriving DecidableEq, Repr

/-- Embedding of `FileOrganizer.__init__`, parameterized by the
`os.path.isdir` oracle: reject a non-directory target with a
`ValueError`, otherwise install the hardcoded default mapping. -/
def FileOrganizer.init (isdir : String → Bool) (target_directory : String) :
    Except InitError FileOrganizer :=
  if isdir target_directory then
    .ok ⟨target_directory, createDefaultMappings⟩
  else
    .error (.invalidTarget target_directory)

/-- Outcome of the loop body on one listed name: continue with counter
deltas and a new state, or abort the run with the uncaught
`FileExistsError` of `os.makedirs`. -/
inductive StepOut where
  | cont : Nat → Nat → FS → StepOut
  | abort : OrgError → FS → StepOut
deriving DecidableEq, Repr

/-- Embedding of one iteration of the loop of `organize_files` on the
listed name `filename`. `mv` is the `shutil.move` environment oracle:
`none` means the move succeeds, `some detail` means it raises with the
given detail (permissions, device boundary, collision rejection, and so
on), caught by the per-file `try` block. -/
def processOne (mv : String → Option String) (mp : List (String × String))
    (fs : FS) (filename : String) : StepOut :=
  if isdirAt fs filename then
    .cont 0 0 fs
  else
    let file_extension := strLower (splitextExt filename)
    if file_extension = "" then
      .cont 0 1 (fs.addLog (.warnNoExt filename))
    else
      let destination_folder_name := categoryFor mp file_extension
      match makedirs fs destination_folder_name with
      | .error e => .abort e fs
      | .ok fs₁ =>
          match mv filename with
          | some detail =>
              .cont 0 1 (fs₁.addLog (.moveFailed filename detail))
          | none =>
              .cont 1 0
                ((moveToFolder fs₁ filename destination_folder_name).addLog
                  (.movedLog filename destination_folder_name))

instance {ε α : Type} [DecidableEq ε] [DecidableEq α] : DecidableEq (Except ε α) := fun
  | .ok a, .ok b =>
      if h : a = b then isTrue (by rw [h])
      else isFalse (by intro hh; cases hh; exact h rfl)
  | .ok _, .error _ => isFalse (by intro h; cases h)
  | .error _, .ok _ => isFalse (by intro h; cases h)
  | .error a, .error b =>
      if h : a = b then isTrue (by rw [h])
      else isFalse (by intro hh; cases hh; exact h rfl)

/-- Result of a run: the counters on normal completion or the uncaught
exception, together with the filesystem state at the point the loop
ended and the list of names the loop enumerated. -/
structure RunResult where
  result : Except OrgError (Nat × Nat)
  fs : FS
  processed : List String
deriving DecidableEq, Repr

/-- The loop of `organize_files` over the remaining listed names,
carrying the two counters. An uncaught exception ends the loop at once:
the names after the raising one are never processed. -/
def organizeFrom (mv : String → Option String) (mp : List (String × String))
    (moved skipped : Nat) (fs : FS) : List String → RunResult
  | [] => ⟨.ok (moved, skipped), fs, []⟩
  | f :: rest =>
      match processOne mv mp fs f with
      | .cont dm dk fs' =>
          let r := organizeFrom mv mp (moved + dm) (skipped + dk) fs' rest
          ⟨r.result, r.fs, f :: r.processed⟩
      | .abort e fs' => ⟨.error e, fs', [f]⟩

/-- Embedding of `FileOrganizer.organize_files`: log the start line,
take one `os.listdir` snapshot of the root, run the loop over it from
zero counters, and log the completion summary when the loop ends
normally. -/
def organize_files (mv : String → Option String) (mp : List (String × String))
    (fs : FS) : RunResult :=
  let fs₀ := fs.addLog .startRun
  let r := organizeFrom mv mp 0 0 fs₀ (listdir fs₀)
  match r.result with
  | .ok mk => ⟨r.result, r.fs.addLog (.complete mk.fst mk.snd), r.processed⟩
  | .error _ => r

/-- Embedding of the execution block: construct the organizer for the
target (raising `ValueError` out of the construction when the target is
not a directory, before the filesystem is read or written) and then run
`organize_files` with the installed mapping. -/
def organizeRun (isdir : String → Bool) (mv : String → Option String)
    (target : String) (fs : FS) :
    Except InitError (Except OrgError (Nat × Nat)) × FS :=
  match FileOrganizer.init isdir target with
  | .error e => (.error e, fs)
  | .ok org =>
      let r := organize_files mv org.file_mappings fs
      (.ok r.result, r.fs)

/-! ### Helper lemmas about the embedded operations -/

/-- `lastIdxOf` returns an index inside the list. -/
theorem lastIdxOf_lt_length {c : Char} :
    ∀ {l : List Char} {d : Nat}, lastIdxOf c l = some d → d < l.length := by
  intro l
  induction l with
  | nil => intro d h; simp [lastIdxOf] at h
  | cons a rest ih =>
      intro d h
      simp only [lastIdxOf] at h
      cases hrec : lastIdxOf c rest with
      | some i =>
          rw [hrec] at h
          cases h
          have := ih hrec
          simp only [List.length_cons]
          omega
      | none =>
          rw [hrec] at h
          by_cases hac : a = c
          · rw [if_pos hac] at h
            cases h
            simp
          · rw [if_neg hac] at h
            cases h

/-- A nonempty character list stays nonempty under `String.mk` and
lower-casing. -/
theorem strLower_mk_ne_empty {l : List Char} (h : l ≠ []) :
    strLower (String.mk l) ≠ "" := by
  intro heq
  apply h
  have hdata : (strLower (String.mk l)).data = ("" : String).data := by rw [heq]
  simp only [strLower] at hdata
  have : l.map Char.toLower = [] := hdata
  exact List.map_eq_nil_iff.mp this

/-- When the splitext extension of a name is nonempty it is exactly the
substring from the last dot to the end of the name. -/
theorem splitextExt_eq_claimed {f : String} (h : splitextExt f ≠ "") :
    splitextExt f = claimedExtension f := by
  unfold splitextExt claimedExtension at *
  cases hidx : lastIdxOf '.' f.data with
  | none => simp only [hidx] at h; exact absurd rfl h
  | some d =>
      simp only [hidx] at h ⊢
      split at h
      · exact absurd rfl h
      · next hall => rw [if_neg hall]

/-- A nonempty splitext extension stays nonempty after lower-casing. -/
theorem strLower_splitext_ne {f : String} (h : splitextExt f ≠ "") :
    strLower (splitextExt f) ≠ "" := by
  revert h
  unfold splitextExt
  cases hidx : lastIdxOf '.' f.data with
  | none => simp only [hidx]; intro h; exact absurd rfl h
  | some d =>
      simp only [hidx]
      split
      · intro h; exact absurd rfl h
      · intro _
        apply strLower_mk_ne_empty
        intro hnil
        have hd := lastIdxOf_lt_length hidx
        have : f.data.length ≤ d := List.drop_eq_nil_iff.mp hnil
        omega

/-- Appending a log event does not change the root entries. -/
theorem rootEntry?_addLog (fs : FS) (ev : LogEvent) (n : String) :
    (fs.addLog ev).rootEntry? n = fs.rootEntry? n := rfl

/-- Appending a log event does not change the listing. -/
theorem listdir_addLog (fs : FS) (ev : LogEvent) :
    listdir (fs.addLog ev) = listdir fs := rfl

/-- A found root entry survives `makedirs`. -/
theorem rootEntry?_makedirs_ok {fs fs₁ : FS} {c n : String} {e : Entry}
    (h : makedirs fs c = .ok fs₁) (hn : fs.rootEntry? n = some e) :
    fs₁.rootEntry? n = some e := by
  unfold makedirs at h
  cases hc : fs.rootEntry? c with
  | some ec =>
      simp only [hc] at h
      split at h
      · cases h; exact hn
      · cases h
  | none =>
      simp only [hc] at h
      cases h
      unfold FS.rootEntry? at hn ⊢
      simp only [List.find?_append, hn]
      rfl

/-- Moving a file with a different name leaves a root lookup unchanged. -/
theorem rootEntry?_moveToFolder {fs : FS} {f d n : String} (hne : n ≠ f) :
    (moveToFolder fs f d).rootEntry? n = fs.rootEntry? n := by
  have key : ∀ l : List Entry,
      (l.filter (fun e => ¬ e.name = f)).find? (fun e => e.name = n) =
        l.find? (fun e => e.name = n) := by
    intro l
    induction l with
    | nil => rfl
    | cons e tl ih =>
        by_cases hef : e.name = f
        · have h1 : (decide (¬ e.name = f)) = false := by simp [hef]
          have h2 : (decide (e.name = n)) = false := by
            simp only [decide_eq_false_iff_not]
            rw [hef]
            intro hfn
            exact hne hfn.symm
          simp only [List.filter_cons, List.find?_cons, h1, h2, Bool.false_eq_true,
            if_false, ih]
        · have h1 : (decide (¬ e.name = f)) = true := by simp [hef]
          by_cases hn2 : e.name = n
          · have h2 : (decide (e.name = n)) = true := by simp [hn2]
            simp only [List.filter_cons, List.find?_cons, h1, h2, if_true]
          · have h2 : (decide (e.name = n)) = false := by simp [hn2]
            simp only [List.filter_cons, List.find?_cons, h1, h2, Bool.false_eq_true,
              if_true, ih]
  unfold moveToFolder FS.rootEntry?
  by_cases hmem : (fs.folders.map Prod.fst).contains d
  · simp only [hmem, if_true]
    exact key fs.entries
  · simp only [hmem, if_false]
    exact key fs.entries

/-- The result of a run is the result of its loop. -/
theorem organize_files_result (mv : String → Option String)
    (mp : List (String × String)) (fs : FS) :
    (organize_files mv mp fs).result =
      (organizeFrom mv mp 0 0 (fs.addLog .startRun) (listdir fs)).result := by
  simp only [organize_files, listdir_addLog]
  cases h : (organizeFrom mv mp 0 0 (fs.addLog .startRun) (listdir fs)).result with
  | ok mk => simp [h]
  | error e => simp [h]

/-- The enumerated names of a run are the enumerated names of its loop. -/
theorem organize_files_processed (mv : String → Option String)
    (mp : List (String × String)) (fs : FS) :
    (organize_files mv mp fs).processed =
      (organizeFrom mv mp 0 0 (fs.addLog .startRun) (listdir fs)).processed := by
  simp only [organize_files, listdir_addLog]
  cases h : (organizeFrom mv mp 0 0 (fs.addLog .startRun) (listdir fs)).result with
  | ok mk => simp [h]
  | error e => simp [h]

/-- The final root entries of a run are the final root entries of its
loop (the completion summary only touches the log). -/
theorem organize_files_entries (mv : String → Option String)
    (mp : List (String × String)) (fs : FS) :
    (organize_files mv mp fs).fs.entries =
      (organizeFrom mv mp 0 0 (fs.addLog .startRun) (listdir fs)).fs.entries := by
  simp only [organize_files, listdir_addLog]
  cases h : (organizeFrom mv mp 0 0 (fs.addLog .startRun) (listdir fs)).result with
  | ok mk => simp [h, FS.addLog]
  | error e => simp [h]

/-- The loop enumerates a prefix of the names it was given, the whole
list when it completes normally. -/
theorem organizeFrom_processed_prefix (mv : String → Option String)
    (mp : List (String × String)) :
    ∀ (rest : List String) (m k : Nat) (fs : FS),
      ∃ t, rest = (organizeFrom mv mp m k fs rest).processed ++ t ∧
        ∀ mk₂, (organizeFrom mv mp m k fs rest).result = .ok mk₂ → t = [] := by
  intro rest
  induction rest with
  | nil => intro m k fs; exact ⟨[], rfl, fun _ _ => rfl⟩
  | cons f tl ih =>
      intro m k fs
      cases hstep : processOne mv mp fs f with
      | cont dm dk fs₂ =>
          obtain ⟨t, ht, hok⟩ := ih (m + dm) (k + dk) fs₂
          refine ⟨t, ?_, ?_⟩
          · simp only [organizeFrom, hstep, List.cons_append]
            exact congrArg (f :: ·) ht
          · intro mk₂ hres
            apply hok mk₂
            simpa only [organizeFrom, hstep] using hres
      | abort e fs₂ =>
          refine ⟨tl, ?_, ?_⟩
          · simp only [organizeFrom, hstep, List.cons_append, List.nil_append]
          · intro mk₂ hres
            simp only [organizeFrom, hstep] at hres
            cases hres

/-- Splitting the loop across a completed prefix of the listing. -/
theorem organizeFrom_append (mv : String → Option String)
    (mp : List (String × String)) :
    ∀ (l₁ : List String) (m k : Nat) (s : FS) {m₁ k₁ : Nat} {s₁ : FS}
      {ps₁ : List String},
      organizeFrom mv mp m k s l₁ = ⟨.ok (m₁, k₁), s₁, ps₁⟩ →
      ∀ l₂, organizeFrom mv mp m k s (l₁ ++ l₂) =
        ⟨(organizeFrom mv mp m₁ k₁ s₁ l₂).result,
         (organizeFrom mv mp m₁ k₁ s₁ l₂).fs,
         ps₁ ++ (organizeFrom mv mp m₁ k₁ s₁ l₂).processed⟩ := by
  intro l₁
  induction l₁ with
  | nil =>
      intro m k s m₁ k₁ s₁ ps₁ h l₂
      simp only [organizeFrom, RunResult.mk.injEq, Except.ok.injEq,
        Prod.mk.injEq] at h
      obtain ⟨⟨hm, hk⟩, hs, hp⟩ := h
      subst hm; subst hk; subst hs; subst hp
      simp only [List.nil_append]
  | cons f tl ih =>
      intro m k s m₁ k₁ s₁ ps₁ h l₂
      cases hstep : processOne mv mp s f with
      | cont dm dk s₂ =>
          simp only [organizeFrom, hstep, RunResult.mk.injEq] at h
          obtain ⟨hres, hfs, hp⟩ := h
          have htl : organizeFrom mv mp (m + dm) (k + dk) s₂ tl =
              ⟨.ok (m₁, k₁), s₁,
               (organizeFrom mv mp (m + dm) (k + dk) s₂ tl).processed⟩ := by
            rw [← hres, ← hfs]
          have h2 := ih (m + dm) (k + dk) s₂ htl l₂
          simp only [List.cons_append, organizeFrom, hstep, List.append_eq, h2,
            RunResult.mk.injEq, true_and]
          rw [← hp]
          simp only [List.cons_append, and_self]
      | abort e s₂ =>
          simp only [organizeFrom, hstep, RunResult.mk.injEq] at h
          obtain ⟨hres, _, _⟩ := h
          cases hres

/-! ### Claim C1: the mapping loader -/

/-- C1 counterexample: constructing the organizer with the target
validated as a directory succeeds and silently installs the hardcoded
default mapping built by `_create_default_mappings`, which is not empty.
No configuration resource is consulted at all, so the construction never
fails with a NotFound or MalformedConfig error, contradicting the claim
that a run halts rather than substituting a default mapping. -/
theorem c1_counterexample :
    FileOrganizer.init (fun _ => true) "/data" =
      .ok ⟨"/data", createDefaultMappings⟩ ∧ createDefaultMappings ≠ [] := by
  constructor
  · rfl
  · decide

/-- C1 (amended): there is no mapping loader. Whenever the target path
is a directory, initialization succeeds and always installs the
hardcoded default extension-to-category mapping; no configuration
resource is read and no NotFound or MalformedConfig failure exists. -/
theorem c1_default_mapping_always_installed (isdir : String → Bool) (t : String)
    (h : isdir t = true) :
    FileOrganizer.init isdir t = .ok ⟨t, createDefaultMappings⟩ := by
  simp [FileOrganizer.init, h]

/-- Witness for C1 (amended) at a concrete target. -/
theorem c1_default_mapping_always_installed_witness :
    (fun (_ : String) => true) "/home/u/files" = true ∧
    FileOrganizer.init (fun _ => true) "/home/u/files" =
      .ok ⟨"/home/u/files", createDefaultMappings⟩ :=
  ⟨rfl, c1_default_mapping_always_installed (fun _ => true) "/home/u/files" rfl⟩

/-! ### Claim C2: extension extraction and category resolution -/

/-- C2 counterexample: the name ".bashrc" contains a dot, and by the
claim its category would be resolved by looking up the lowered substring
from the last dot (absent from the mapping, hence "Other"); but the code
extracts an empty extension for it via `os.path.splitext`, resolves no
category, and skips the file. -/
theorem c2_counterexample :
    '.' ∈ (".bashrc" : String).data ∧
    categoryFor createDefaultMappings (strLower (claimedExtension ".bashrc")) = "Other" ∧
    fileCategory createDefaultMappings ".bashrc" = none := by
  refine ⟨by decide, by decide, by decide⟩

/-- C2 (amended): for every file name whose splitext extension is
nonempty (a dot preceded by at least one non-dot character), the
extracted extension is exactly the substring from the last dot to the
end of the name, and the resolved category is the mapping lookup of its
lower-casing, with "Other" when the lowered extension is absent. -/
theorem c2_extension_resolution (mp : List (String × String)) (f : String)
    (h : splitextExt f ≠ "") :
    splitextExt f = claimedExtension f ∧
    fileCategory mp f = some ((mp.lookup (strLower (claimedExtension f))).getD "Other") := by
  have h3 := splitextExt_eq_claimed h
  have h2 := strLower_splitext_ne h
  refine ⟨h3, ?_⟩
  unfold fileCategory
  rw [if_neg h2]
  unfold categoryFor
  rw [h3]

/-- Witness for C2 (amended): "photo.JPG" resolves, case-insensitively,
to the Images category. -/
theorem c2_extension_resolution_witness :
    splitextExt "photo.JPG" ≠ "" ∧
    splitextExt "photo.JPG" = claimedExtension "photo.JPG" ∧
    fileCategory createDefaultMappings "photo.JPG" =
      some ((createDefaultMappings.lookup (strLower (claimedExtension "photo.JPG"))).getD "Other") ∧
    fileCategory createDefaultMappings "photo.JPG" = some "Images" :=
  ⟨by decide,
   (c2_extension_resolution createDefaultMappings "photo.JPG" (by decide)).1,
   (c2_extension_resolution createDefaultMappings "photo.JPG" (by decide)).2,
   by decide⟩

/-! ### Claim C5: invalid target rejected before any mutation -/

/-- C5: when the target path does not exist or is not a directory, the
whole run fails with the `ValueError` of the constructor, the error is
surfaced to the caller, and the filesystem is returned exactly as it
was: no folder has been created and no file has been moved. -/
theorem c5_invalid_target (isdir : String → Bool) (mv : String → Option String)
    (t : String) (fs : FS) (h : isdir t = false) :
    organizeRun isdir mv t fs = (.error (.invalidTarget t), fs) := by
  simp [organizeRun, FileOrganizer.init, h]

/-- Witness for C5 at a concrete missing target. -/
theorem c5_invalid_target_witness :
    (fun (_ : String) => false) "/no/such/dir" = false ∧
    organizeRun (fun _ => false) (fun _ => none) "/no/such/dir"
        ⟨[⟨"a.txt", false⟩], [], []⟩ =
      (.error (.invalidTarget "/no/such/dir"), ⟨[⟨"a.txt", false⟩], [], []⟩) :=
  ⟨rfl, c5_invalid_target (fun _ => false) (fun _ => none) "/no/such/dir"
      ⟨[⟨"a.txt", false⟩], [], []⟩ rfl⟩

/-! ### Claim C6: extensionless files are skipped in place -/

/-- C6: processing a regular root file whose splitext extension is empty
appends exactly the warning to the log, increments the skip counter by
one, leaves the root entries and the folders untouched (no move is
attempted and no destination folder is created on its behalf), and the
loop continues with the remaining names. -/
theorem c6_no_extension_skipped (mv : String → Option String)
    (mp : List (String × String)) (m k : Nat) (fs : FS) (f : String)
    (rest : List String) (e : Entry)
    (he : fs.rootEntry? f = some e) (hd : e.isDir = false)
    (hx : splitextExt f = "") :
    organizeFrom mv mp m k fs (f :: rest) =
      ⟨(organizeFrom mv mp m (k + 1) (fs.addLog (.warnNoExt f)) rest).result,
       (organizeFrom mv mp m (k + 1) (fs.addLog (.warnNoExt f)) rest).fs,
       f :: (organizeFrom mv mp m (k + 1) (fs.addLog (.warnNoExt f)) rest).processed⟩ := by
  have h1 : isdirAt fs f = false := by simp [isdirAt, he, hd]
  have h2 : strLower (splitextExt f) = "" := by rw [hx]; rfl
  simp [organizeFrom, processOne, h1, h2]

/-- Witness for C6: the extensionless file "notes" stays in place and is
counted as skipped. -/
theorem c6_no_extension_skipped_witness :
    (FS.mk [⟨"notes", false⟩] [] []).rootEntry? "notes" = some ⟨"notes", false⟩ ∧
    (Entry.mk "notes" false).isDir = false ∧
    splitextExt "notes" = "" ∧
    organizeFrom (fun _ => none) createDefaultMappings 0 0
        ⟨[⟨"notes", false⟩], [], []⟩ ["notes"] =
      ⟨(organizeFrom (fun _ => none) createDefaultMappings 0 (0 + 1)
          ((FS.mk [⟨"notes", false⟩] [] []).addLog (.warnNoExt "notes")) []).result,
       (organizeFrom (fun _ => none) createDefaultMappings 0 (0 + 1)
          ((FS.mk [⟨"notes", false⟩] [] []).addLog (.warnNoExt "notes")) []).fs,
       "notes" :: (organizeFrom (fun _ => none) createDefaultMappings 0 (0 + 1)
          ((FS.mk [⟨"notes", false⟩] [] []).addLog (.warnNoExt "notes")) []).processed⟩ :=
  ⟨by decide, rfl, by decide,
   c6_no_extension_skipped (fun _ => none) createDefaultMappings 0 0
     ⟨[⟨"notes", false⟩], [], []⟩ "notes" [] ⟨"notes", false⟩
     (by decide) rfl (by decide)⟩

/-! ### Claim C8: directory entries are ignored unconditionally -/

/-- C8: processing a root entry that is a directory changes nothing at
all: the filesystem (entries, folders, log) is passed on unchanged, no
descent into the directory happens (the loop never reads folder
contents), neither counter moves, and the loop continues with the
remaining names. -/
theorem c8_directories_ignored (mv : String → Option String)
    (mp : List (String × String)) (m k : Nat) (fs : FS) (f : String)
    (rest : List String) (e : Entry)
    (he : fs.rootEntry? f = some e) (hd : e.isDir = true) :
    organizeFrom mv mp m k fs (f :: rest) =
      ⟨(organizeFrom mv mp m k fs rest).result,
       (organizeFrom mv mp m k fs rest).fs,
       f :: (organizeFrom mv mp m k fs rest).processed⟩ := by
  have h1 : isdirAt fs f = true := by simp [isdirAt, he, hd]
  simp [organizeFrom, processOne, h1]

/-- Witness for C8: the sub-folder "archive" is passed over untouched
and uncounted while "b.txt" is still processed. -/
theorem c8_directories_ignored_witness :
    (FS.mk [⟨"archive", true⟩, ⟨"b.txt", false⟩] [] []).rootEntry? "archive" =
      some ⟨"archive", true⟩ ∧
    (Entry.mk "archive" true).isDir = true ∧
    organizeFrom (fun _ => none) createDefaultMappings 0 0
        ⟨[⟨"archive", true⟩, ⟨"b.txt", false⟩], [], []⟩ ["archive", "b.txt"] =
      ⟨(organizeFrom (fun _ => none) createDefaultMappings 0 0
          ⟨[⟨"archive", true⟩, ⟨"b.txt", false⟩], [], []⟩ ["b.txt"]).result,
       (organizeFrom (fun _ => none) createDefaultMappings 0 0
          ⟨[⟨"archive", true⟩, ⟨"b.txt", false⟩], [], []⟩ ["b.txt"]).fs,
       "archive" :: (organizeFrom (fun _ => none) createDefaultMappings 0 0
          ⟨[⟨"archive", true⟩, ⟨"b.txt", false⟩], [], []⟩ ["b.txt"]).processed⟩ :=
  ⟨by decide, rfl,
   c8_directories_ignored (fun _ => none) createDefaultMappings 0 0
     ⟨[⟨"archive", true⟩, ⟨"b.txt", false⟩], [], []⟩ "archive" ["b.txt"]
     ⟨"archive", true⟩ (by decide) rfl⟩

/-! ### Claim C4: per-file move failures are recovered locally -/

/-- C4: when the move of a regular file with an extension fails (the
environment oracle reports any relocation error), the failure is caught
by the per-file handler: an error event carrying the file name and the
failure detail is appended to the log, the skip counter is incremented
by one, the file is not removed from the root, and the loop continues
with the remaining names instead of aborting the run. -/
theorem c4_move_failure_recovered (mv : String → Option String)
    (mp : List (String × String)) (m k : Nat) (fs fs₁ : FS)
    (f detail : String) (rest : List String) (e : Entry)
    (he : fs.rootEntry? f = some e) (hd : e.isDir = false)
    (hx : splitextExt f ≠ "")
    (hmk : makedirs fs (categoryFor mp (strLower (splitextExt f))) = .ok fs₁)
    (hmv : mv f = some detail) :
    organizeFrom mv mp m k fs (f :: rest) =
      ⟨(organizeFrom mv mp m (k + 1) (fs₁.addLog (.moveFailed f detail)) rest).result,
       (organizeFrom mv mp m (k + 1) (fs₁.addLog (.moveFailed f detail)) rest).fs,
       f :: (organizeFrom mv mp m (k + 1)
          (fs₁.addLog (.moveFailed f detail)) rest).processed⟩ := by
  have h1 : isdirAt fs f = false := by simp [isdirAt, he, hd]
  have h2 := strLower_splitext_ne hx
  simp [organizeFrom, processOne, h1, h2, hmk, hmv]

/-- Witness for C4: the move of "a.jpg" is rejected with a permission
detail, the file is counted skipped, and the loop goes on to "b.txt". -/
theorem c4_move_failure_recovered_witness :
    (FS.mk [⟨"a.jpg", false⟩, ⟨"b.txt", false⟩] [] []).rootEntry? "a.jpg" =
      some ⟨"a.jpg", false⟩ ∧
    splitextExt "a.jpg" ≠ "" ∧
    makedirs ⟨[⟨"a.jpg", false⟩, ⟨"b.txt", false⟩], [], []⟩
        (categoryFor createDefaultMappings (strLower (splitextExt "a.jpg"))) =
      .ok ⟨[⟨"a.jpg", false⟩, ⟨"b.txt", false⟩, ⟨"Images", true⟩], [("Images", [])], []⟩ ∧
    organizeFrom (fun n => if n = "a.jpg" then some "Permission denied" else none)
        createDefaultMappings 0 0
        ⟨[⟨"a.jpg", false⟩, ⟨"b.txt", false⟩], [], []⟩ ["a.jpg", "b.txt"] =
      ⟨(organizeFrom (fun n => if n = "a.jpg" then some "Permission denied" else none)
          createDefaultMappings 0 (0 + 1)
          ((FS.mk [⟨"a.jpg", false⟩, ⟨"b.txt", false⟩, ⟨"Images", true⟩]
              [("Images", [])] []).addLog (.moveFailed "a.jpg" "Permission denied"))
          ["b.txt"]).result,
       (organizeFrom (fun n => if n = "a.jpg" then some "Permission denied" else none)
          createDefaultMappings 0 (0 + 1)
          ((FS.mk [⟨"a.jpg", false⟩, ⟨"b.txt", false⟩, ⟨"Images", true⟩]
              [("Images", [])] []).addLog (.moveFailed "a.jpg" "Permission denied"))
          ["b.txt"]).fs,
       "a.jpg" :: (organizeFrom (fun n => if n = "a.jpg" then some "Permission denied" else none)
          createDefaultMappings 0 (0 + 1)
          ((FS.mk [⟨"a.jpg", false⟩, ⟨"b.txt", false⟩, ⟨"Images", true⟩]
              [("Images", [])] []).addLog (.moveFailed "a.jpg" "Permission denied"))
          ["b.txt"]).processed⟩ :=
  ⟨by decide, by decide, by decide,
   c4_move_failure_recovered
     (fun n => if n = "a.jpg" then some "Permission denied" else none)
     createDefaultMappings 0 0
     ⟨[⟨"a.jpg", false⟩, ⟨"b.txt", false⟩], [], []⟩
     ⟨[⟨"a.jpg", false⟩, ⟨"b.txt", false⟩, ⟨"Images", true⟩], [("Images", [])], []⟩
     "a.jpg" "Permission denied" ["b.txt"] ⟨"a.jpg", false⟩
     (by decide) rfl (by decide) (by decide) rfl⟩

/-! ### Claim C9: a root file named as a category aborts the run -/

/-- C9: when the loop reaches a regular file g with a nonempty extension
and, at that moment, the target root holds a regular file whose name is
exactly the category resolved for g, the folder-creation step raises the
`FileExistsError` outside the per-file handler: the run ends with that
error, the filesystem stays as it was after the prefix, g is the last
enumerated name, and the names after g are never processed. -/
theorem c9_category_named_file_aborts_run (mv : String → Option String)
    (mp : List (String × String)) (fs s₁ : FS) (l₁ l₂ : List String)
    (g : String) (m k : Nat) (ps : List String)
    (hl : listdir fs = l₁ ++ g :: l₂)
    (hpre : organizeFrom mv mp 0 0 (fs.addLog .startRun) l₁ = ⟨.ok (m, k), s₁, ps⟩)
    (hg : s₁.rootEntry? g = some ⟨g, false⟩)
    (hx : splitextExt g ≠ "")
    (hc : s₁.rootEntry? (categoryFor mp (strLower (splitextExt g))) =
        some ⟨categoryFor mp (strLower (splitextExt g)), false⟩) :
    organize_files mv mp fs =
      ⟨.error (.fileExistsError (categoryFor mp (strLower (splitextExt g)))),
       s₁, ps ++ [g]⟩ := by
  have h1 : isdirAt s₁ g = false := by simp [isdirAt, hg]
  have h2 := strLower_splitext_ne hx
  have h3 : makedirs s₁ (categoryFor mp (strLower (splitextExt g))) =
      .error (.fileExistsError (categoryFor mp (strLower (splitextExt g)))) := by
    simp [makedirs, hc]
  have hstep : processOne mv mp s₁ g =
      .abort (.fileExistsError (categoryFor mp (strLower (splitextExt g)))) s₁ := by
    simp [processOne, h1, h2, h3]
  have hrun : organizeFrom mv mp m k s₁ (g :: l₂) =
      ⟨.error (.fileExistsError (categoryFor mp (strLower (splitextExt g)))),
       s₁, [g]⟩ := by
    simp only [organizeFrom, hstep]
  have happ := organizeFrom_append mv mp l₁ 0 0 (fs.addLog .startRun) hpre (g :: l₂)
  have hall : organizeFrom mv mp 0 0 (fs.addLog .startRun) (listdir fs) =
      ⟨.error (.fileExistsError (categoryFor mp (strLower (splitextExt g)))),
       s₁, ps ++ [g]⟩ := by
    rw [hl, happ, hrun]
  simp only [organize_files, listdir_addLog, hall]

/-- Witness for C9: the root holds a regular file named "Images" next to
"pic.jpg"; the run dies on the folder-creation step for "pic.jpg". -/
theorem c9_category_named_file_aborts_run_witness :
    listdir ⟨[⟨"Images", false⟩, ⟨"pic.jpg", false⟩], [], []⟩ =
      ["Images"] ++ "pic.jpg" :: [] ∧
    organize_files (fun _ => none) createDefaultMappings
        ⟨[⟨"Images", false⟩, ⟨"pic.jpg", false⟩], [], []⟩ =
      ⟨.error (.fileExistsError
          (categoryFor createDefaultMappings (strLower (splitextExt "pic.jpg")))),
       ⟨[⟨"Images", false⟩, ⟨"pic.jpg", false⟩], [],
        [.startRun, .warnNoExt "Images"]⟩,
       ["Images"] ++ ["pic.jpg"]⟩ :=
  ⟨by decide,
   c9_category_named_file_aborts_run (fun _ => none) createDefaultMappings
     ⟨[⟨"Images", false⟩, ⟨"pic.jpg", false⟩], [], []⟩
     ⟨[⟨"Images", false⟩, ⟨"pic.jpg", false⟩], [], [.startRun, .warnNoExt "Images"]⟩
     ["Images"] [] "pic.jpg" 0 1 ["Images"]
     (by decide) (by decide) (by decide) (by decide) (by decide)⟩

/-! ### Claim C10: one snapshot listing fixes the processed entries -/

/-- C10: the names a run enumerates form a prefix of the single listing
taken at run start (the whole listing when the run completes normally),
they are pairwise distinct (no initial entry, and so no moved file, is
processed twice), and any root entry present at the end of the run that
was not in the initial listing, such as a category folder created during
the run, was never enumerated. -/
theorem c10_snapshot_listing (mv : String → Option String)
    (mp : List (String × String)) (fs : FS) (hwf : fs.WF) :
    (∃ t, listdir fs = (organize_files mv mp fs).processed ++ t) ∧
    (∀ mk₂, (organize_files mv mp fs).result = .ok mk₂ →
        (organize_files mv mp fs).processed = listdir fs) ∧
    (organize_files mv mp fs).processed.Nodup ∧
    (∀ d, d ∈ listdir (organize_files mv mp fs).fs → d ∉ listdir fs →
        d ∉ (organize_files mv mp fs).processed) := by
  obtain ⟨t, ht, hok⟩ :=
    organizeFrom_processed_prefix mv mp (listdir fs) 0 0 (fs.addLog .startRun)
  rw [← organize_files_processed] at ht
  have hnd : (listdir fs).Nodup := hwf
  refine ⟨⟨t, ht⟩, ?_, ?_, ?_⟩
  · intro mk₂ hres
    have htnil : t = [] := by
      apply hok mk₂
      rw [← organize_files_result]
      exact hres
    rw [htnil, List.append_nil] at ht
    exact ht.symm
  · rw [ht] at hnd
    exact hnd.of_append_left
  · intro d _ hdold hdproc
    apply hdold
    rw [ht]
    exact List.mem_append_left t hdproc

/-- Witness for C10 on a root with a file, a sub-folder and an
extensionless file: the processed names are exactly the initial listing
even though the run creates the folder "Images". -/
theorem c10_snapshot_listing_witness :
    (FS.mk [⟨"a.jpg", false⟩, ⟨"sub", true⟩, ⟨"notes", false⟩] [] []).WF ∧
    ((∃ t, listdir ⟨[⟨"a.jpg", false⟩, ⟨"sub", true⟩, ⟨"notes", false⟩], [], []⟩ =
        (organize_files (fun _ => none) createDefaultMappings
          ⟨[⟨"a.jpg", false⟩, ⟨"sub", true⟩, ⟨"notes", false⟩], [], []⟩).processed ++ t) ∧
     (∀ mk₂, (organize_files (fun _ => none) createDefaultMappings
          ⟨[⟨"a.jpg", false⟩, ⟨"sub", true⟩, ⟨"notes", false⟩], [], []⟩).result = .ok mk₂ →
        (organize_files (fun _ => none) createDefaultMappings
          ⟨[⟨"a.jpg", false⟩, ⟨"sub", true⟩, ⟨"notes", false⟩], [], []⟩).processed =
          listdir ⟨[⟨"a.jpg", false⟩, ⟨"sub", true⟩, ⟨"notes", false⟩], [], []⟩) ∧
     (organize_files (fun _ => none) createDefaultMappings
        ⟨[⟨"a.jpg", false⟩, ⟨"sub", true⟩, ⟨"notes", false⟩], [], []⟩).processed.Nodup ∧
     (∀ d, d ∈ listdir (organize_files (fun _ => none) createDefaultMappings
          ⟨[⟨"a.jpg", false⟩, ⟨"sub", true⟩, ⟨"notes", false⟩], [], []⟩).fs →
        d ∉ listdir ⟨[⟨"a.jpg", false⟩, ⟨"sub", true⟩, ⟨"notes", false⟩], [], []⟩ →
        d ∉ (organize_files (fun _ => none) createDefaultMappings
          ⟨[⟨"a.jpg", false⟩, ⟨"sub", true⟩, ⟨"notes", false⟩], [], []⟩).processed)) :=
  ⟨by decide,
   c10_snapshot_listing (fun _ => none) createDefaultMappings
     ⟨[⟨"a.jpg", false⟩, ⟨"sub", true⟩, ⟨"notes", false⟩], [], []⟩ (by decide)⟩

/-! ### Claim C3: moved plus skipped counts the regular entries -/

/-- A listed name has a root entry. -/
theorem rootEntry?_isSome_of_mem_listdir {fs : FS} {n : String}
    (h : n ∈ listdir fs) : ∃ e, fs.rootEntry? n = some e := by
  unfold listdir at h
  obtain ⟨e, he, hname⟩ := List.mem_map.mp h
  unfold FS.rootEntry?
  have : (fs.entries.find? (fun e => e.name = n)).isSome := by
    rw [List.find?_isSome]
    exact ⟨e, he, by simp [hname]⟩
  exact Option.isSome_iff_exists.mp this

/-- With pairwise distinct names, a root lookup of an entry's own name
finds exactly that entry. -/
theorem find?_name_self {l : List Entry} (h : (l.map Entry.name).Nodup)
    {e : Entry} (he : e ∈ l) :
    l.find? (fun x => x.name = e.name) = some e := by
  induction l with
  | nil => cases he
  | cons a tl ih =>
      rw [List.map_cons, List.nodup_cons] at h
      rcases List.mem_cons.mp he with hea | hetl
      · subst hea
        simp [List.find?_cons]
      · have hne : ¬ a.name = e.name := by
          intro hcontra
          apply h.1
          rw [hcontra]
          exact List.mem_map.mpr ⟨e, hetl, rfl⟩
        rw [List.find?_cons_of_neg]
        · exact ih h.2 hetl
        · simp [hne]

/-- With pairwise distinct names, the `os.path.isdir` check on an
entry's name reports that entry's kind. -/
theorem isdirAt_name {fs : FS} (hwf : fs.WF) {e : Entry}
    (he : e ∈ fs.entries) : isdirAt fs e.name = e.isDir := by
  unfold isdirAt FS.rootEntry?
  rw [find?_name_self hwf he]

/-- Counting regular entries through the name listing. -/
theorem count_regular_aux :
    ∀ (l : List Entry) (F : String → Bool),
      (l.map Entry.name).Nodup →
      (∀ e, e ∈ l → F e.name = e.isDir) →
      ((l.map Entry.name).filter (fun n => !(F n))).length =
        (l.filter (fun e => !e.isDir)).length := by
  intro l
  induction l with
  | nil => intro F _ _; rfl
  | cons e tl ih =>
      intro F hnd hF
      rw [List.map_cons] at hnd ⊢
      rw [List.nodup_cons] at hnd
      have hFe : F e.name = e.isDir := hF e (List.mem_cons_self e tl)
      have htl := ih F hnd.2 (fun x hx => hF x (List.mem_cons_of_mem e hx))
      cases hdir : e.isDir with
      | true =>
          rw [List.filter_cons, List.filter_cons]
          simp only [hFe, hdir, Bool.not_true, Bool.false_eq_true, if_false, htl]
      | false =>
          rw [List.filter_cons, List.filter_cons]
          simp only [hFe, hdir, Bool.not_false, if_true, List.length_cons, htl]

/-- Each regular listed name contributes exactly one to the sum of the
two counters; directory names contribute nothing. Invariant induction
over the loop: the names still to process look up in the current state
exactly as in the starting state. -/
theorem organizeFrom_ok_count (mv : String → Option String)
    (mp : List (String × String)) (s₀ : FS) :
    ∀ (rest : List String) (m k : Nat) (s : FS) (m₁ k₁ : Nat),
      rest.Nodup →
      (∀ n, n ∈ rest → n ∈ listdir s₀) →
      (∀ n, n ∈ rest → s.rootEntry? n = s₀.rootEntry? n) →
      (organizeFrom mv mp m k s rest).result = .ok (m₁, k₁) →
      m₁ + k₁ = m + k + (rest.filter (fun n => !(isdirAt s₀ n))).length := by
  intro rest
  induction rest with
  | nil =>
      intro m k s m₁ k₁ _ _ _ hres
      simp only [organizeFrom] at hres
      cases hres
      simp
  | cons f tl ih =>
      intro m k s m₁ k₁ hnd hsub hI1 hres
      rw [List.nodup_cons] at hnd
      have hI1f : s.rootEntry? f = s₀.rootEntry? f :=
        hI1 f (List.mem_cons_self f tl)
      have hdir_eq : isdirAt s f = isdirAt s₀ f := by
        unfold isdirAt
        rw [hI1f]
      have hsub_tl : ∀ n, n ∈ tl → n ∈ listdir s₀ :=
        fun n hn => hsub n (List.mem_cons_of_mem f hn)
      cases hdir : isdirAt s₀ f with
      | true =>
          have hstep : processOne mv mp s f = .cont 0 0 s := by
            simp [processOne, hdir_eq.trans hdir]
          rw [show organizeFrom mv mp m k s (f :: tl) =
              ⟨(organizeFrom mv mp (m + 0) (k + 0) s tl).result,
               (organizeFrom mv mp (m + 0) (k + 0) s tl).fs,
               f :: (organizeFrom mv mp (m + 0) (k + 0) s tl).processed⟩ by
            simp only [organizeFrom, hstep]] at hres
          have := ih (m + 0) (k + 0) s m₁ k₁ hnd.2 hsub_tl
            (fun n hn => hI1 n (List.mem_cons_of_mem f hn)) hres
          rw [List.filter_cons]
          simp only [hdir, Bool.not_true, Bool.false_eq_true, if_false]
          omega
      | false =>
          by_cases hx : strLower (splitextExt f) = ""
          · have hstep : processOne mv mp s f =
                .cont 0 1 (s.addLog (.warnNoExt f)) := by
              simp [processOne, hdir_eq.trans hdir, hx]
            rw [show organizeFrom mv mp m k s (f :: tl) =
                ⟨(organizeFrom mv mp (m + 0) (k + 1)
                    (s.addLog (.warnNoExt f)) tl).result,
                 (organizeFrom mv mp (m + 0) (k + 1)
                    (s.addLog (.warnNoExt f)) tl).fs,
                 f :: (organizeFrom mv mp (m + 0) (k + 1)
                    (s.addLog (.warnNoExt f)) tl).processed⟩ by
              simp only [organizeFrom, hstep]] at hres
            have := ih (m + 0) (k + 1) (s.addLog (.warnNoExt f)) m₁ k₁ hnd.2 hsub_tl
              (fun n hn => (rootEntry?_addLog s _ n).trans
                (hI1 n (List.mem_cons_of_mem f hn))) hres
            rw [List.filter_cons]
            simp only [hdir, Bool.not_false, if_true, List.length_cons]
            omega
          · cases hmk : makedirs s (categoryFor mp (strLower (splitextExt f))) with
            | error e =>
                have hstep : processOne mv mp s f = .abort e s := by
                  simp [processOne, hdir_eq.trans hdir, hx, hmk]
                rw [show organizeFrom mv mp m k s (f :: tl) = ⟨.error e, s, [f]⟩ by
                  simp only [organizeFrom, hstep]] at hres
                cases hres
            | ok s₂ =>
                have hI1tl : ∀ n, n ∈ tl → s₂.rootEntry? n = s₀.rootEntry? n := by
                  intro n hn
                  obtain ⟨en, hen⟩ := rootEntry?_isSome_of_mem_listdir (hsub_tl n hn)
                  have hsn : s.rootEntry? n = some en := by
                    rw [hI1 n (List.mem_cons_of_mem f hn)]
                    exact hen
                  rw [rootEntry?_makedirs_ok hmk hsn, hen]
                cases hmv : mv f with
                | some detail =>
                    have hstep : processOne mv mp s f =
                        .cont 0 1 (s₂.addLog (.moveFailed f detail)) := by
                      simp [processOne, hdir_eq.trans hdir, hx, hmk, hmv]
                    rw [show organizeFrom mv mp m k s (f :: tl) =
                        ⟨(organizeFrom mv mp (m + 0) (k + 1)
                            (s₂.addLog (.moveFailed f detail)) tl).result,
                         (organizeFrom mv mp (m + 0) (k + 1)
                            (s₂.addLog (.moveFailed f detail)) tl).fs,
                         f :: (organizeFrom mv mp (m + 0) (k + 1)
                            (s₂.addLog (.moveFailed f detail)) tl).processed⟩ by
                      simp only [organizeFrom, hstep]] at hres
                    have := ih (m + 0) (k + 1) (s₂.addLog (.moveFailed f detail))
                      m₁ k₁ hnd.2 hsub_tl
                      (fun n hn => (rootEntry?_addLog s₂ _ n).trans (hI1tl n hn)) hres
                    rw [List.filter_cons]
                    simp only [hdir, Bool.not_false, if_true, List.length_cons]
                    omega
                | none =>
                    have hstep : processOne mv mp s f =
                        .cont 1 0 ((moveToFolder s₂ f
                            (categoryFor mp (strLower (splitextExt f)))).addLog
                          (.movedLog f (categoryFor mp (strLower (splitextExt f))))) := by
                      simp [processOne, hdir_eq.trans hdir, hx, hmk, hmv]
                    rw [show organizeFrom mv mp m k s (f :: tl) =
                        ⟨(organizeFrom mv mp (m + 1) (k + 0)
                            ((moveToFolder s₂ f
                                (categoryFor mp (strLower (splitextExt f)))).addLog
                              (.movedLog f (categoryFor mp (strLower (splitextExt f))))) tl).result,
                         (organizeFrom mv mp (m + 1) (k + 0)
                            ((moveToFolder s₂ f
                                (categoryFor mp (strLower (splitextExt f)))).addLog
                              (.movedLog f (categoryFor mp (strLower (splitextExt f))))) tl).fs,
                         f :: (organizeFrom mv mp (m + 1) (k + 0)
                            ((moveToFolder s₂ f
                                (categoryFor mp (strLower (splitextExt f)))).addLog
                              (.movedLog f (categoryFor mp (strLower (splitextExt f))))) tl).processed⟩ by
                      simp only [organizeFrom, hstep]] at hres
                    have := ih (m + 1) (k + 0)
                      ((moveToFolder s₂ f
                          (categoryFor mp (strLower (splitextExt f)))).addLog
                        (.movedLog f (categoryFor mp (strLower (splitextExt f)))))
                      m₁ k₁ hnd.2 hsub_tl
                      (fun n hn => by
                        rw [rootEntry?_addLog,
                          rootEntry?_moveToFolder
                            (by intro hnf; exact hnd.1 (by rw [← hnf]; exact hn))]
                        exact hI1tl n hn) hres
                    rw [List.filter_cons]
                    simp only [hdir, Bool.not_false, if_true, List.length_cons]
                    omega

/-- C3: when a run over a well-formed root completes normally, the moved
counter plus the skipped counter equals the number of regular
(non-directory) entries that were present in the target root when the
run started. -/
theorem c3_counters_partition_regular_files (mv : String → Option String)
    (mp : List (String × String)) (fs : FS) (m k : Nat) (hwf : fs.WF)
    (h : (organize_files mv mp fs).result = .ok (m, k)) :
    m + k = (fs.entries.filter (fun e => !e.isDir)).length := by
  have hres : (organizeFrom mv mp 0 0 (fs.addLog .startRun) (listdir fs)).result =
      .ok (m, k) := by
    rw [← organize_files_result]
    exact h
  have hcount := organizeFrom_ok_count mv mp fs (listdir fs) 0 0
    (fs.addLog .startRun) m k hwf (fun n hn => hn)
    (fun n _ => rootEntry?_addLog fs .startRun n) hres
  have hfix := count_regular_aux fs.entries (fun n => isdirAt fs n) hwf
    (fun e he => isdirAt_name hwf he)
  unfold listdir at hcount
  rw [hfix] at hcount
  omega

/-- Witness for C3: three regular files (one moved, one extensionless,
one with a failing move) and one sub-folder give moved + skipped = 3. -/
theorem c3_counters_partition_regular_files_witness :
    (FS.mk [⟨"a.jpg", false⟩, ⟨"notes", false⟩, ⟨"bad.xyz", false⟩, ⟨"sub", true⟩]
      [] []).WF ∧
    (organize_files (fun n => if n = "bad.xyz" then some "Busy" else none)
        createDefaultMappings
        ⟨[⟨"a.jpg", false⟩, ⟨"notes", false⟩, ⟨"bad.xyz", false⟩, ⟨"sub", true⟩],
         [], []⟩).result = .ok (1, 2) ∧
    1 + 2 = ((FS.mk [⟨"a.jpg", false⟩, ⟨"notes", false⟩, ⟨"bad.xyz", false⟩,
        ⟨"sub", true⟩] [] []).entries.filter (fun e => !e.isDir)).length :=
  ⟨by decide, by decide,
   c3_counters_partition_regular_files
     (fun n => if n = "bad.xyz" then some "Busy" else none)
     createDefaultMappings
     ⟨[⟨"a.jpg", false⟩, ⟨"notes", false⟩, ⟨"bad.xyz", false⟩, ⟨"sub", true⟩], [], []⟩
     1 2 (by decide) (by decide)⟩

/-! ### Claim C7: the second run moves nothing -/

/-- Lower-casing yields the empty string only on the empty string. -/
theorem strLower_eq_empty {s : String} (h : strLower s = "") : s = "" := by
  have hdata : s.data.map Char.toLower = [] := congrArg String.data h
  have hnil : s.data = [] := List.map_eq_nil_iff.mp hdata
  cases s with
  | mk data =>
      simp only at hnil
      rw [hnil]

/-- What `makedirs` can do to the root entries: nothing, or append one
fresh directory entry whose name no present entry carries. -/
theorem makedirs_ok_cases {fs : FS} {c : String} {fs₂ : FS}
    (h : makedirs fs c = .ok fs₂) :
    fs₂.entries = fs.entries ∨
      (fs₂.entries = fs.entries ++ [⟨c, true⟩] ∧
        ∀ e, e ∈ fs.entries → e.name ≠ c) := by
  unfold makedirs at h
  cases hc : fs.rootEntry? c with
  | some ec =>
      simp only [hc] at h
      split at h
      · cases h; exact .inl rfl
      · cases h
  | none =>
      simp only [hc] at h
      cases h
      refine .inr ⟨rfl, ?_⟩
      intro e he hname
      unfold FS.rootEntry? at hc
      have := List.find?_eq_none.mp hc e he
      simp [hname] at this

/-- Moving a file out of the root filters exactly its name. -/
theorem moveToFolder_entries (fs : FS) (n d : String) :
    (moveToFolder fs n d).entries =
      fs.entries.filter (fun e => ¬ e.name = n) := by
  simp only [moveToFolder]
  split <;> rfl

/-- The `os.path.isdir` check ignores the log. -/
theorem isdirAt_addLog (fs : FS) (ev : LogEvent) (n : String) :
    isdirAt (fs.addLog ev) n = isdirAt fs n := rfl

/-- After a normally completed loop in which every attempted move
succeeded, every root entry left is a directory or an extensionless
file, and the names stay pairwise distinct. Invariant induction: an
entry is a directory, extensionless, or still waiting in the worklist. -/
theorem organizeFrom_post (mv : String → Option String)
    (mp : List (String × String)) (hmv : ∀ n, mv n = none) :
    ∀ (rest : List String) (m k : Nat) (s : FS) (m₁ k₁ : Nat),
      (s.entries.map Entry.name).Nodup →
      (∀ e, e ∈ s.entries →
        e.isDir = true ∨ splitextExt e.name = "" ∨ e.name ∈ rest) →
      (organizeFrom mv mp m k s rest).result = .ok (m₁, k₁) →
      ((organizeFrom mv mp m k s rest).fs.entries.map Entry.name).Nodup ∧
      ∀ e, e ∈ (organizeFrom mv mp m k s rest).fs.entries →
        e.isDir = true ∨ splitextExt e.name = "" := by
  intro rest
  induction rest with
  | nil =>
      intro m k s m₁ k₁ hnd hinv _
      refine ⟨hnd, ?_⟩
      intro e he
      rcases hinv e he with h | h | h
      · exact .inl h
      · exact .inr h
      · cases h
  | cons f tl ih =>
      intro m k s m₁ k₁ hnd hinv hres
      cases hdf : isdirAt s f with
      | true =>
          have hstep : processOne mv mp s f = .cont 0 0 s := by
            simp [processOne, hdf]
          have hun : organizeFrom mv mp m k s (f :: tl) =
              ⟨(organizeFrom mv mp (m + 0) (k + 0) s tl).result,
               (organizeFrom mv mp (m + 0) (k + 0) s tl).fs,
               f :: (organizeFrom mv mp (m + 0) (k + 0) s tl).processed⟩ := by
            simp only [organizeFrom, hstep]
          rw [hun] at hres ⊢
          apply ih (m + 0) (k + 0) s m₁ k₁ hnd ?_ hres
          intro e he
          rcases hinv e he with h | h | h
          · exact .inl h
          · exact .inr (.inl h)
          · rcases List.mem_cons.mp h with hef | hetl
            · refine .inl ?_
              rw [← isdirAt_name hnd he, hef, hdf]
            · exact .inr (.inr hetl)
      | false =>
          by_cases hx : strLower (splitextExt f) = ""
          · have hstep : processOne mv mp s f =
                .cont 0 1 (s.addLog (.warnNoExt f)) := by
              simp [processOne, hdf, hx]
            have hun : organizeFrom mv mp m k s (f :: tl) =
                ⟨(organizeFrom mv mp (m + 0) (k + 1)
                    (s.addLog (.warnNoExt f)) tl).result,
                 (organizeFrom mv mp (m + 0) (k + 1)
                    (s.addLog (.warnNoExt f)) tl).fs,
                 f :: (organizeFrom mv mp (m + 0) (k + 1)
                    (s.addLog (.warnNoExt f)) tl).processed⟩ := by
              simp only [organizeFrom, hstep]
            rw [hun] at hres ⊢
            apply ih (m + 0) (k + 1) (s.addLog (.warnNoExt f)) m₁ k₁ hnd ?_ hres
            intro e he
            rcases hinv e he with h | h | h
            · exact .inl h
            · exact .inr (.inl h)
            · rcases List.mem_cons.mp h with hef | hetl
              · refine .inr (.inl ?_)
                rw [hef]
                exact strLower_eq_empty hx
              · exact .inr (.inr hetl)
          · cases hmk : makedirs s (categoryFor mp (strLower (splitextExt f))) with
            | error e =>
                have hstep : processOne mv mp s f = .abort e s := by
                  simp [processOne, hdf, hx, hmk]
                rw [show organizeFrom mv mp m k s (f :: tl) = ⟨.error e, s, [f]⟩ by
                  simp only [organizeFrom, hstep]] at hres
                cases hres
            | ok s₂ =>
                have hstep : processOne mv mp s f =
                    .cont 1 0 ((moveToFolder s₂ f
                        (categoryFor mp (strLower (splitextExt f)))).addLog
                      (.movedLog f (categoryFor mp (strLower (splitextExt f))))) := by
                  simp [processOne, hdf, hx, hmk, hmv f]
                have hun : organizeFrom mv mp m k s (f :: tl) =
                    ⟨(organizeFrom mv mp (m + 1) (k + 0)
                        ((moveToFolder s₂ f
                            (categoryFor mp (strLower (splitextExt f)))).addLog
                          (.movedLog f (categoryFor mp (strLower (splitextExt f))))) tl).result,
                     (organizeFrom mv mp (m + 1) (k + 0)
                        ((moveToFolder s₂ f
                            (categoryFor mp (strLower (splitextExt f)))).addLog
                          (.movedLog f (categoryFor mp (strLower (splitextExt f))))) tl).fs,
                     f :: (organizeFrom mv mp (m + 1) (k + 0)
                        ((moveToFolder s₂ f
                            (categoryFor mp (strLower (splitextExt f)))).addLog
                          (.movedLog f (categoryFor mp (strLower (splitextExt f))))) tl).processed⟩ := by
                  simp only [organizeFrom, hstep]
                rw [hun] at hres ⊢
                have hs₂nd : (s₂.entries.map Entry.name).Nodup := by
                  rcases makedirs_ok_cases hmk with hsame | ⟨happ, hfresh⟩
                  · rw [hsame]; exact hnd
                  · rw [happ, List.map_append, List.nodup_append]
                    refine ⟨hnd, List.nodup_singleton _, ?_⟩
                    intro x hxmem hxsing
                    obtain ⟨ex, hex, hexn⟩ := List.mem_map.mp hxmem
                    simp only [List.map_cons, List.map_nil,
                      List.mem_singleton] at hxsing
                    exact hfresh ex hex (by rw [hexn, hxsing])
                have hs₂inv : ∀ e, e ∈ s₂.entries →
                    e.isDir = true ∨ splitextExt e.name = "" ∨ e.name ∈ f :: tl := by
                  intro e he
                  rcases makedirs_ok_cases hmk with hsame | ⟨happ, _⟩
                  · exact hinv e (by rw [← hsame]; exact he)
                  · rw [happ] at he
                    rcases List.mem_append.mp he with hold | hnew
                    · exact hinv e hold
                    · simp only [List.mem_singleton] at hnew
                      rw [hnew]
                      exact .inl rfl
                set s₃ := (moveToFolder s₂ f
                    (categoryFor mp (strLower (splitextExt f)))).addLog
                  (.movedLog f (categoryFor mp (strLower (splitextExt f)))) with hs₃
                have hs₃entries : s₃.entries =
                    s₂.entries.filter (fun e => ¬ e.name = f) := by
                  rw [hs₃]
                  exact moveToFolder_entries s₂ f _
                apply ih (m + 1) (k + 0) s₃ m₁ k₁ ?_ ?_ hres
                · rw [hs₃entries]
                  exact List.Nodup.sublist
                    (List.Sublist.map Entry.name (List.filter_sublist _)) hs₂nd
                · intro e he
                  rw [hs₃entries] at he
                  have hmem := List.mem_of_mem_filter he
                  have hpred := List.of_mem_filter he
                  have hnef : ¬ e.name = f := by
                    simpa using hpred
                  rcases hs₂inv e hmem with h | h | h
                  · exact .inl h
                  · exact .inr (.inl h)
                  · rcases List.mem_cons.mp h with hef | hetl
                    · exact absurd hef hnef
                    · exact .inr (.inr hetl)

/-- A loop over names that are all directories or extensionless
performs no move: the moved counter is returned untouched. -/
theorem organizeFrom_no_moves (mv : String → Option String)
    (mp : List (String × String)) :
    ∀ (rest : List String) (m k : Nat) (s : FS),
      (∀ f, f ∈ rest → isdirAt s f = true ∨ splitextExt f = "") →
      ∃ k₁, (organizeFrom mv mp m k s rest).result = .ok (m, k₁) := by
  intro rest
  induction rest with
  | nil => intro m k s _; exact ⟨k, rfl⟩
  | cons f tl ih =>
      intro m k s hall
      by_cases hdf : isdirAt s f = true
      · have hstep : processOne mv mp s f = .cont 0 0 s := by
          simp [processOne, hdf]
        obtain ⟨k₁, hk₁⟩ := ih (m + 0) (k + 0) s
          (fun g hg => hall g (List.mem_cons_of_mem f hg))
        refine ⟨k₁, ?_⟩
        simp only [organizeFrom, hstep]
        simpa using hk₁
      · have hxf : splitextExt f = "" := by
          rcases hall f (List.mem_cons_self f tl) with h | h
          · exact absurd h hdf
          · exact h
        have hx : strLower (splitextExt f) = "" := by rw [hxf]; rfl
        have hdf2 : isdirAt s f = false := by
          cases h : isdirAt s f
          · rfl
          · exact absurd h hdf
        have hstep : processOne mv mp s f =
            .cont 0 1 (s.addLog (.warnNoExt f)) := by
          simp [processOne, hdf2, hx]
        obtain ⟨k₁, hk₁⟩ := ih (m + 0) (k + 1) (s.addLog (.warnNoExt f))
          (fun g hg => by
            rw [isdirAt_addLog]
            exact hall g (List.mem_cons_of_mem f hg))
        refine ⟨k₁, ?_⟩
        simp only [organizeFrom, hstep]
        simpa using hk₁

/-- C7: after a run over a well-formed root completes normally with
every attempted move succeeding, no regular file with an extension is
left flat in the target root (each was relocated out of it), and a
second run over the resulting root, under any move environment, performs
zero moves: the produced category folders and the leftover extensionless
files are all skipped. -/
theorem c7_second_run_moves_nothing (mv : String → Option String)
    (mp : List (String × String)) (fs : FS) (m k : Nat) (hwf : fs.WF)
    (hmv : ∀ n, mv n = none)
    (hok : (organize_files mv mp fs).result = .ok (m, k)) :
    (∀ e, e ∈ (organize_files mv mp fs).fs.entries →
        e.isDir = true ∨ splitextExt e.name = "") ∧
    ∀ mv₂ : String → Option String, ∃ k₂,
      (organize_files mv₂ mp (organize_files mv mp fs).fs).result = .ok (0, k₂) := by
  have hres : (organizeFrom mv mp 0 0 (fs.addLog .startRun) (listdir fs)).result =
      .ok (m, k) := by
    rw [← organize_files_result]
    exact hok
  have hpost := organizeFrom_post mv mp hmv (listdir fs) 0 0
    (fs.addLog .startRun) m k hwf
    (fun e he => .inr (.inr (List.mem_map.mpr ⟨e, he, rfl⟩))) hres
  have hentries := organize_files_entries mv mp fs
  constructor
  · intro e he
    exact hpost.2 e (by rw [← hentries]; exact he)
  · intro mv₂
    set s₁ := (organize_files mv mp fs).fs with hs₁
    have hs₁nd : (s₁.entries.map Entry.name).Nodup := by
      rw [hentries]
      exact hpost.1
    have hs₁inv : ∀ e, e ∈ s₁.entries →
        e.isDir = true ∨ splitextExt e.name = "" := by
      intro e he
      exact hpost.2 e (by rw [← hentries]; exact he)
    have hall : ∀ f, f ∈ listdir s₁ →
        isdirAt (s₁.addLog .startRun) f = true ∨ splitextExt f = "" := by
      intro f hf
      obtain ⟨e, he, hname⟩ := List.mem_map.mp hf
      rw [isdirAt_addLog, ← hname]
      rcases hs₁inv e he with h | h
      · exact .inl (by rw [isdirAt_name hs₁nd he]; exact h)
      · exact .inr h
    obtain ⟨k₂, hk₂⟩ := organizeFrom_no_moves mv₂ mp (listdir s₁) 0 0
      (s₁.addLog .startRun) hall
    refine ⟨k₂, ?_⟩
    rw [organize_files_result]
    exact hk₂

/-- Witness for C7: one moved file, one extensionless file and one
sub-folder; the second run finds only folders and "notes" and moves
nothing. -/
theorem c7_second_run_moves_nothing_witness :
    (FS.mk [⟨"a.jpg", false⟩, ⟨"notes", false⟩, ⟨"sub", true⟩] [] []).WF ∧
    ((∀ e, e ∈ (organize_files (fun _ => none) createDefaultMappings
          ⟨[⟨"a.jpg", false⟩, ⟨"notes", false⟩, ⟨"sub", true⟩], [], []⟩).fs.entries →
        e.isDir = true ∨ splitextExt e.name = "") ∧
     ∀ mv₂ : String → Option String, ∃ k₂,
       (organize_files mv₂ createDefaultMappings
          (organize_files (fun _ => none) createDefaultMappings
            ⟨[⟨"a.jpg", false⟩, ⟨"notes", false⟩, ⟨"sub", true⟩], [], []⟩).fs).result =
         .ok (0, k₂)) :=
  ⟨by decide,
   c7_second_run_moves_nothing (fun _ => none) createDefaultMappings
     ⟨[⟨"a.jpg", false⟩, ⟨"notes", false⟩, ⟨"sub", true⟩], [], []⟩ 1 1
     (by decide) (fun _ => rfl) (by decide)⟩

end Aperture
